import Mathlib

/-!
Verification of the JSON:API extension of the coworks micro-framework
(`coworks/extension/jsonapi`): cursor pagination, the fetching context,
the per-column-type SQL filter builders, the resource-graph serializer
with its included-resource accumulator, and the entry-point dispatch.

Python data is embedded shallowly: dicts become association lists with
in-place overwrite (`pset`), sets become membership-lists, exceptions
become `Except PyErr`, and the serializer's recursion over a potentially
cyclic object graph is driven by an explicit fuel argument (with a proved
bound under which the fuel never runs out).
-/

/-! ## Python-style primitives -/

/-- Python exception taxonomy used by the jsonapi extension. -/
inductive PyErr where
  | valueError (msg : String)
  | unprocessableEntity (msg : String)
  | notFound (msg : String)
  | internalServerError (msg : String)
  | noResultFound
  | multipleResultsFound
deriving DecidableEq, Repr

/-- HTTP status produced by the error mapper in `JsonApi.init_app`
(`jsonapi.py:83-121`): an `HTTPException` keeps its own code
(`NotFound` 404, `UnprocessableEntity` 422, `InternalServerError` 500),
every other exception falls to the generic handler's 500. -/
def httpStatus : PyErr → Nat
  | .valueError _ => 500
  | .unprocessableEntity _ => 422
  | .notFound _ => 404
  | .internalServerError _ => 500
  | .noResultFound => 500
  | .multipleResultsFound => 500

/-- Python `s.split(sep)` accumulator. -/
def splitCharAux (sep : Char) : List Char → List Char → List String
  | [], acc => [String.mk acc.reverse]
  | c :: rest, acc =>
    if c = sep then String.mk acc.reverse :: splitCharAux sep rest []
    else splitCharAux sep rest (c :: acc)

/-- Python `s.split(sep)` for a one-character separator. -/
def splitChar (sep : Char) (s : String) : List String :=
  splitCharAux sep s.data []

/-- Python `s.strip()`. -/
def pyStrip (s : String) : String :=
  String.mk ((s.data.dropWhile Char.isWhitespace).reverse.dropWhile Char.isWhitespace).reverse

/-- Python `s.lower()` (ASCII, which is all the code feeds it). -/
def pyLower (s : String) : String :=
  String.mk (s.data.map Char.toLower)

/-- Python `c in s` for a one-character needle. -/
def charIn (c : Char) (s : String) : Bool :=
  s.data.contains c

/-- Python `pat in hay` substring test. -/
def strInAux (pat : List Char) : List Char → Bool
  | [] => pat.isPrefixOf []
  | c :: rest => pat.isPrefixOf (c :: rest) || strInAux pat rest

/-- Python `pat in hay` substring test. -/
def strIn (pat hay : String) : Bool :=
  strInAux pat.data hay.data

/-- Python `s[n:]`. -/
def strDrop (s : String) (n : Nat) : String :=
  String.mk (s.data.drop n)

/-- Python `s.startswith(p)`. -/
def strStarts (s p : String) : Bool :=
  p.data.isPrefixOf s.data

/-- Mirrors `coworks/utils.py:20-21` — `str_to_bool(val) = val.lower() in ['true', '1', 'yes']`. -/
def str_to_bool (val : String) : Bool :=
  (["true", "1", "yes"] : List String).contains (pyLower val)

/-- Modelled from the spec: `to_bool`, imported by `sql.py` from
`coworks.utils`, is absent from the source snapshot (only `str_to_bool`
is present there); the spec's boolean-string parsing for the `null`
operator ("exactly one boolean-string value; `true` → is null") matches
`str_to_bool`, so `to_bool` is modelled as that function. -/
def to_bool (val : String) : Bool :=
  str_to_bool val

/-- Python `x or default` for an optional int argument (both `None` and
`0` are falsy). -/
def pyOrInt (x : Option Int) (dflt : Int) : Int :=
  match x with
  | none => dflt
  | some n => if n = 0 then dflt else n

/-- Python `oper or 'eq'` for an optional string (both `None` and the
empty string are falsy). -/
def pyOrStr (x : Option String) (dflt : String) : String :=
  match x with
  | none => dflt
  | some s => if s = "" then dflt else s

/-! ## Python dict as an association list

`pset` is `d[k] = v`: an existing key keeps its position and gets the
new value, a fresh key is appended (Python dicts preserve insertion
order and an overwrite keeps the original position). -/

def pset {α : Type} (d : List (String × α)) (k : String) (v : α) : List (String × α) :=
  match d with
  | [] => [(k, v)]
  | (k', v') :: rest => if k' = k then (k, v) :: rest else (k', v') :: pset rest k v

/-- Python `d.get(k)` / `k in d`. -/
def dlookup {α : Type} (d : List (String × α)) (k : String) : Option α :=
  match d with
  | [] => none
  | (k', v) :: rest => if k' = k then some v else dlookup rest k

/-- Python `d.pop(k)` (the remaining dict). -/
def dremove {α : Type} (d : List (String × α)) (k : String) : List (String × α) :=
  match d with
  | [] => []
  | (k', v) :: rest => if k' = k then rest else (k', v) :: dremove rest k

/-- Keys of a dict, in order. -/
def keysOf {α : Type} (d : List (String × α)) : List String :=
  d.map Prod.fst

/-! ## Python set as a membership list -/

/-- Python set union `a | b` (membership semantics). -/
def sunion (a b : List String) : List String :=
  a ++ b.filter (fun x => x ∉ a)

/-- Python set difference `a - b`. -/
def setMinus (a b : List String) : List String :=
  a.filter (fun x => x ∉ b)

/-! ## CursorPagination (`data.py:21-64`) -/

/-- Mirrors `CursorPagination` after its field validators ran (`set_page` turns a
falsy page into 1, `set_per_page` a falsy per_page into 20). -/
structure CursorPagination where
  total : Int
  page : Int
  per_page : Int
deriving DecidableEq, Repr

/-- The validators `set_page` / `set_per_page` (`data.py:27-33`) applied to
raw constructor arguments. -/
def CursorPagination.make (total : Int) (page per_page : Option Int) : CursorPagination :=
  { total := total, page := pyOrInt page 1, per_page := pyOrInt per_page 20 }

/-- Mirrors `data.py:35-40` — `pages` is 1 for a falsy total, else `ceil(total / per_page)`. -/
def CursorPagination.pages (p : CursorPagination) : Int :=
  if p.total = 0 then 1 else ⌈(p.total : ℚ) / (p.per_page : ℚ)⌉

/-- Mirrors `data.py:42-45`. -/
def CursorPagination.has_prev (p : CursorPagination) : Bool :=
  decide (1 < p.page)

/-- Mirrors `data.py:47-52`. -/
def CursorPagination.prev_num (p : CursorPagination) : Option Int :=
  if ¬p.has_prev then none else some (p.page - 1)

/-- Mirrors `data.py:54-57`. -/
def CursorPagination.has_next (p : CursorPagination) : Bool :=
  decide (p.page < p.pages)

/-- Mirrors `data.py:59-64`. -/
def CursorPagination.next_num (p : CursorPagination) : Option Int :=
  if ¬p.has_next then none else some (p.page + 1)

/-- C2: for `per_page > 0` the pagination result satisfies the spec's
formulas: `pages = ceil(total/per_page)` overridden to 1 at `total = 0`
(equivalently `max 1 ⌈total/per_page⌉` for non-negative totals),
`has_prev ↔ page > 1`, `has_next ↔ page < pages`, and `prev_num` /
`next_num` are the adjacent pages exactly when they exist. -/
theorem c2_cursor_pagination_props (p : CursorPagination) (hpp : 0 < p.per_page) :
    (p.total = 0 → p.pages = 1)
    ∧ (p.total ≠ 0 → p.pages = ⌈(p.total : ℚ) / (p.per_page : ℚ)⌉)
    ∧ (0 ≤ p.total → p.pages = max 1 ⌈(p.total : ℚ) / (p.per_page : ℚ)⌉)
    ∧ (p.has_prev = true ↔ 1 < p.page)
    ∧ (p.has_next = true ↔ p.page < p.pages)
    ∧ (p.prev_num = if p.has_prev then some (p.page - 1) else none)
    ∧ (p.next_num = if p.has_next then some (p.page + 1) else none) := by
  refine ⟨fun h => by simp [CursorPagination.pages, h],
          fun h => by simp [CursorPagination.pages, h],
          fun h => ?_, ?_, ?_, ?_, ?_⟩
  · rcases eq_or_lt_of_le h with h0 | h0
    · simp [CursorPagination.pages, ← h0]
    · have hne : p.total ≠ 0 := by omega
      have hq : (0 : ℚ) < (p.total : ℚ) / (p.per_page : ℚ) := by
        apply div_pos
        · exact_mod_cast h0
        · exact_mod_cast hpp
      have hceil : (1 : Int) ≤ ⌈(p.total : ℚ) / (p.per_page : ℚ)⌉ := by
        have := Int.ceil_pos.mpr hq
        omega
      simp [CursorPagination.pages, hne, max_eq_right hceil]
  · simp [CursorPagination.has_prev]
  · simp [CursorPagination.has_next]
  · by_cases h : p.has_prev <;> simp [CursorPagination.prev_num, h]
  · by_cases h : p.has_next <;> simp [CursorPagination.next_num, h]

/-- Witness for C2 at `total = 5, page = 2, per_page = 2`. -/
theorem c2_cursor_pagination_props_witness :
    0 < (CursorPagination.mk 5 2 2).per_page
    ∧ ((CursorPagination.mk 5 2 2).total = 0 → (CursorPagination.mk 5 2 2).pages = 1)
    ∧ ((CursorPagination.mk 5 2 2).total ≠ 0 →
        (CursorPagination.mk 5 2 2).pages =
          ⌈((CursorPagination.mk 5 2 2).total : ℚ) / ((CursorPagination.mk 5 2 2).per_page : ℚ)⌉)
    ∧ (0 ≤ (CursorPagination.mk 5 2 2).total →
        (CursorPagination.mk 5 2 2).pages =
          max 1 ⌈((CursorPagination.mk 5 2 2).total : ℚ) / ((CursorPagination.mk 5 2 2).per_page : ℚ)⌉)
    ∧ ((CursorPagination.mk 5 2 2).has_prev = true ↔ 1 < (CursorPagination.mk 5 2 2).page)
    ∧ ((CursorPagination.mk 5 2 2).has_next = true ↔
        (CursorPagination.mk 5 2 2).page < (CursorPagination.mk 5 2 2).pages)
    ∧ ((CursorPagination.mk 5 2 2).prev_num =
        if (CursorPagination.mk 5 2 2).has_prev then some ((CursorPagination.mk 5 2 2).page - 1) else none)
    ∧ ((CursorPagination.mk 5 2 2).next_num =
        if (CursorPagination.mk 5 2 2).has_next then some ((CursorPagination.mk 5 2 2).page + 1) else none) :=
  ⟨by decide, c2_cursor_pagination_props (CursorPagination.mk 5 2 2) (by decide)⟩

/-! ## SQL filter builders (`sql.py`) -/

/-- Python values carried by attributes and filter predicates. `vDt` wraps
an ISO-8601 string: `datetime.fromisoformat` is standard-library code and
is modelled as tagging the string. `vList` covers the scalar lists (and
the empty relationship lists) that reach attribute values. -/
inductive PyVal where
  | vStr (s : String)
  | vInt (n : Int)
  | vBool (b : Bool)
  | vDt (s : String)
  | vNone
  | vList (vs : List String)
deriving DecidableEq, Repr

/-- Column types the dispatch in `typed_filter` (`sql.py:109-119`)
distinguishes (`python_type` of the SQLAlchemy column type). -/
inductive PyType where
  | tBool
  | tStr
  | tInt
  | tDatetime
  | tList
deriving DecidableEq, Repr

/-- SQLAlchemy predicate expressions the filter builders produce. -/
inductive SqlPred where
  | isNull (col : String)
  | notP (p : SqlPred)
  | eqP (col : String) (v : PyVal)
  | neqP (col : String) (v : PyVal)
  | geP (col : String) (v : PyVal)
  | gtP (col : String) (v : PyVal)
  | leP (col : String) (v : PyVal)
  | ltP (col : String) (v : PyVal)
  | inP (col : String) (vs : List PyVal)
  | ilikeP (col : String) (pat : String)
  | containsP (col : String) (v : PyVal)
  | containsListP (col : String) (vs : List String)
deriving DecidableEq, Repr

/-- Python `int(s)` (sign and decimal digits; other spellings are outside
the inputs the extension receives). -/
def pyInt (s : String) : Except PyErr Int :=
  let core := fun (ds : List Char) (sign : Int) =>
    if ds ≠ [] ∧ ds.all Char.isDigit then
      Except.ok (sign * (ds.foldl (fun acc c => acc * 10 + (c.toNat - '0'.toNat)) 0 : Nat))
    else
      Except.error (PyErr.valueError ("invalid literal for int() with base 10: '" ++ s ++ "'"))
  match s.data with
  | '-' :: rest => core rest (-1)
  | '+' :: rest => core rest 1
  | ds => core ds 1

/-- Mirrors `datetime.fromisoformat` (standard library) modelled as tagging the
string; malformed date strings are outside the modelled domain. -/
def fromisoformat (s : String) : PyVal :=
  PyVal.vDt s

/-- Mirrors `sql.py:178-192` — comparison predicate for one operator name. -/
def sort_operator (col : String) (oper : String) (v : PyVal) : Except PyErr SqlPred :=
  if oper = "eq" then .ok (.eqP col v)
  else if oper = "neq" then .ok (.neqP col v)
  else if oper = "ge" then .ok (.geP col v)
  else if oper = "gt" then .ok (.gtP col v)
  else if oper = "le" then .ok (.leP col v)
  else if oper = "lt" then .ok (.ltP col v)
  else .error (.unprocessableEntity ("Undefined operator '" ++ oper ++ "'"))

/-- Mirrors `sql.py:123-127` — boolean filter: the operator argument is never
inspected; exactly one value is required and the predicate is
`column == to_bool(value[0])`. -/
def bool_filter (col : String) (oper : Option String) (value : List String) :
    Except PyErr (List SqlPred) :=
  match value with
  | [v] => .ok [.eqP col (.vBool (to_bool v))]
  | _ => .error (.unprocessableEntity "Multiple boolean values is not allowed")

/-- Mirrors `fetching.py:276-280` — `bool_sql_filter`, the in-context duplicate of
`bool_filter` (it parses with `str_to_bool` and equally ignores `oper`). -/
def bool_sql_filter (col : String) (oper : Option String) (value : List String) :
    Except PyErr (List SqlPred) :=
  match value with
  | [v] => .ok [.eqP col (.vBool (str_to_bool v))]
  | _ => .error (.unprocessableEntity "Multiple boolean values is not allowed")

/-- Mirrors `sql.py:130-150` — string filter. -/
def str_filter (col : String) (oper : Option String) (value : List String) :
    Except PyErr (List SqlPred) :=
  let oper := pyOrStr oper "eq"
  if oper = "eq" then .ok [.inP col (value.map PyVal.vStr)]
  else if oper = "neq" then .ok [.notP (.inP col (value.map PyVal.vStr))]
  else if oper = "ilike" then .ok (value.map (fun v => SqlPred.ilikeP col v))
  else if oper = "nilike" then .ok (value.map (fun v => SqlPred.notP (.ilikeP col v)))
  else if oper = "contains" then .ok (value.map (fun v => SqlPred.containsP col (.vStr v)))
  else if oper = "ncontains" then .ok (value.map (fun v => SqlPred.notP (.containsP col (.vStr v))))
  else if oper = "in" then
    .ok [.inP col ((value.flatMap (fun v => splitChar ',' v)).map PyVal.vStr)]
  else if oper = "nin" then
    .ok [.notP (.inP col ((value.flatMap (fun v => splitChar ',' v)).map PyVal.vStr))]
  else .error (.unprocessableEntity ("Undefined operator '" ++ oper ++ "' for string value"))

/-- Mirrors `sql.py:153-159` — integer filter. -/
def int_filter (col : String) (oper : Option String) (value : List String) :
    Except PyErr (List SqlPred) :=
  let oper := pyOrStr oper "eq"
  if oper = "in" then
    value.mapM (fun v => do
      let ns ← (splitChar ',' v).mapM pyInt
      pure (SqlPred.inP col (ns.map PyVal.vInt)))
  else
    value.mapM (fun v => do
      let n ← pyInt v
      sort_operator col oper (.vInt n))

/-- Mirrors `sql.py:162-165` — datetime filter. -/
def datetime_filter (col : String) (oper : Option String) (value : List String) :
    Except PyErr (List SqlPred) :=
  let oper := pyOrStr oper "eq"
  value.mapM (fun v => sort_operator col oper (fromisoformat v))

/-- Mirrors `sql.py:168-175` — list-column filter. -/
def list_filter (col : String) (oper : Option String) (value : List String) :
    Except PyErr (List SqlPred) :=
  if oper = some "contains" then .ok [.containsListP col value]
  else if oper = some "ncontains" then
    .ok (value.map (fun v => SqlPred.notP (.containsListP col [v])))
  else
    .error (.unprocessableEntity ("Undefined operator '" ++
      (match oper with | some o => o | none => "None") ++ "' for list value"))

/-- Mirrors `sql.py:96-120` — `typed_filter`: the `null` operator is handled for
any column type first (exactly one boolean-string value), then the
per-type table dispatches; with no column type the fallback is
membership of the raw values (the source returns that single
`column.in_` criterion bare). -/
def typed_filter (ty : Option PyType) (col : String) (oper : Option String)
    (value : List String) : Except PyErr (List SqlPred) :=
  if oper = some "null" then
    match value with
    | [v] => .ok [if to_bool v then .isNull col else .notP (.isNull col)]
    | _ => .error (.unprocessableEntity "Multiple boolean values for null test not allowed")
  else
    match ty with
    | some .tBool => bool_filter col oper value
    | some .tStr => str_filter col oper value
    | some .tInt => int_filter col oper value
    | some .tDatetime => datetime_filter col oper value
    | some .tList => list_filter col oper value
    | none => .ok [.inP col (value.map PyVal.vStr)]

/-- C4 (amended): on a boolean-typed column the requested operator is
ignored rather than validated — any operator other than `null` produces
the predicate `column == to_bool(value)` and never fails with
`InvalidOperator`; more than one value fails (with the multiple-values
`UnprocessableEntity`, under either branch's message); and
`bool_sql_filter` behaves the same with `str_to_bool`. -/
theorem c4_bool_filter_ignores_operator (col : String) (oper : Option String) (v : String) :
    (typed_filter (some .tBool) col oper [v] =
      .ok [if oper = some "null" then
             (if to_bool v then .isNull col else .notP (.isNull col))
           else .eqP col (.vBool (to_bool v))])
    ∧ (∀ v₁ v₂ vs, typed_filter (some .tBool) col oper (v₁ :: v₂ :: vs) =
        .error (.unprocessableEntity
          (if oper = some "null" then "Multiple boolean values for null test not allowed"
           else "Multiple boolean values is not allowed")))
    ∧ bool_sql_filter col oper [v] = .ok [.eqP col (.vBool (str_to_bool v))] := by
  refine ⟨?_, fun v₁ v₂ vs => ?_, rfl⟩
  · by_cases h : oper = some "null" <;> simp [typed_filter, bool_filter, h]
  · by_cases h : oper = some "null" <;> simp [typed_filter, bool_filter, h]

/-- C4 counterexample to the claim as stated: requesting the `ilike`
operator on a boolean column does not fail with `InvalidOperator` — it
silently builds the equality predicate. -/
theorem c4_bool_ilike_no_error :
    typed_filter (some .tBool) "active" (some "ilike") ["true"] =
      .ok [.eqP "active" (.vBool true)] := by
  rfl

/-- C10: a `null`-operator filter with exactly one value never raises:
it produces the `is null` predicate exactly when the lowercased value is
one of `true`, `1`, `yes`, and the `is not null` predicate for every
other value string. -/
theorem c10_null_filter_str_to_bool (ty : Option PyType) (col : String) (v : String) :
    typed_filter ty col (some "null") [v] =
      .ok [if (["true", "1", "yes"] : List String).contains (pyLower v)
           then .isNull col else .notP (.isNull col)] := by
  simp [typed_filter, to_bool, str_to_bool]

/-! ## FetchingContext construction (`fetching.py:26-49`) -/

/-- A raw `fields[type]` query parameter: the HTTP layer may hand a single
comma-list or (on repeated parameters) a list of them. -/
inductive FieldsParam where
  | one (s : String)
  | many (ss : List String)
deriving DecidableEq, Repr

/-- Right-to-left scan behind `rsplitLast`. -/
def rsplitLastAux : List Char → List Char → Option (String × String)
  | [], _ => none
  | c :: rest, acc =>
    if c = '.' then some (String.mk rest.reverse, String.mk acc.reverse)
    else rsplitLastAux rest (c :: acc)

/-- Python `k.rsplit('.', 1)` as used at `fetching.py:43` (scanning from
the right): `some (before, after)` splits at the last dot, `none` when
the key has no dot (there the source's tuple unpacking raises
`ValueError`). -/
def rsplitLast (k : String) : Option (String × String) :=
  rsplitLastAux k.data.reverse []

/-- The filter-normalisation loop of `FetchingContext.__init__`
(`fetching.py:39-47`): each raw key is split at its last dot into
`(jsonapi type, attribute[____operator])` and appended to that type's
group (a `defaultdict(list)`); a key with no dot raises `ValueError`. -/
def filtersFold : List (String × List String) →
    List (String × List (String × List String)) →
    Except PyErr (List (String × List (String × List String)))
  | [], acc => .ok acc
  | (k, v) :: rest, acc =>
    match rsplitLast k with
    | none =>
      .error (.valueError ("The filter parameter '" ++ k ++
        "' must be of the form 'filter[type.value][oper]'"))
    | some (jsonType, f) =>
      filtersFold rest (pset acc jsonType ((dlookup acc jsonType).getD [] ++ [(f, v)]))

/-- Mirrors `FetchingContext` state after `__init__` (`fetching.py:26-49`). -/
structure FetchingContext where
  include' : List String
  fields : List (String × FieldsParam)
  sort : List String
  page : Int
  per_page : Int
  max_per_page : Int
  filters : List (String × List (String × List String))
deriving Repr

/-- Mirrors `FetchingContext.__init__` (`fetching.py:28-49`): comma-split and strip
`include`/`sort`, fall back to page `(1, 100, 100)` on falsy page
parameters, and normalise the raw filters mapping. -/
def FetchingContext.make (include' : Option String) (fields__ : Option (List (String × FieldsParam)))
    (filters__ : Option (List (String × List String))) (sort : Option String)
    (page__number__ page__size__ page__max__ : Option Int) :
    Except PyErr FetchingContext := do
  let inc := match include' with
    | some s => if s = "" then [] else (splitChar ',' s).map pyStrip
    | none => []
  let srt := match sort with
    | some s => if s = "" then [] else (splitChar ',' s).map pyStrip
    | none => []
  let filters ← filtersFold (filters__.getD []) []
  pure { include' := inc, fields := fields__.getD [], sort := srt,
         page := pyOrInt page__number__ 1, per_page := pyOrInt page__size__ 100,
         max_per_page := pyOrInt page__max__ 100, filters := filters }

/-- C5 (amended): the page parameters default to `(1, 100, 100)` when
absent (or falsy), but the per-page size is stored exactly as supplied —
`FetchingContext.__init__` never clamps it to `max_per_page` (clamping is
left to the backing query's `paginate`). -/
theorem c5_page_defaults_no_clamp (include' : Option String)
    (fields__ : Option (List (String × FieldsParam))) (sort : Option String)
    (pn ps pm : Option Int) :
    ∃ ctx, FetchingContext.make include' fields__ none sort pn ps pm = .ok ctx
      ∧ ctx.page = pyOrInt pn 1
      ∧ ctx.per_page = pyOrInt ps 100
      ∧ ctx.max_per_page = pyOrInt pm 100 :=
  ⟨_, rfl, rfl, rfl, rfl⟩

/-- C5 counterexample to the claim as stated: a supplied page size of 500
with the default `max_size` of 100 is stored unclamped, so the resulting
per-page size exceeds `max_size`. -/
theorem c5_size_not_clamped :
    ∃ ctx, FetchingContext.make none none none none none (some 500) none = .ok ctx
      ∧ ctx.per_page = 500 ∧ ctx.max_per_page = 100 ∧ ¬ctx.per_page ≤ ctx.max_per_page :=
  ⟨⟨[], [], [], 1, 500, 100, []⟩, rfl, rfl, rfl, by decide⟩

/-! ### Association-list and key-splitting lemmas -/

theorem dlookup_pset_self {α : Type} (d : List (String × α)) (k : String) (v : α) :
    dlookup (pset d k v) k = some v := by
  induction d with
  | nil => simp [pset, dlookup]
  | cons kv rest ih =>
    obtain ⟨k', v'⟩ := kv
    by_cases h : k' = k <;> simp [pset, dlookup, h, ih]

theorem dlookup_pset_ne {α : Type} (d : List (String × α)) (k k' : String) (v : α)
    (h : k' ≠ k) : dlookup (pset d k v) k' = dlookup d k' := by
  induction d with
  | nil => simp [pset, dlookup, h, Ne.symm h]
  | cons kv rest ih =>
    obtain ⟨k₀, v₀⟩ := kv
    by_cases h0 : k₀ = k
    · subst h0
      simp [pset, dlookup, h, Ne.symm h]
    · by_cases h1 : k₀ = k'
      · subst h1
        simp [pset, dlookup, h0, h]
      · simp [pset, dlookup, h0, h1, ih]

theorem rsplitLastAux_none_iff (l acc : List Char) :
    rsplitLastAux l acc = none ↔ '.' ∉ l := by
  induction l generalizing acc with
  | nil => simp [rsplitLastAux]
  | cons c rest ih =>
    by_cases h : c = '.'
    · subst h
      simp [rsplitLastAux]
    · simp [rsplitLastAux, h, ih, Ne.symm h]

/-- A key has no dot exactly when `rsplit('.', 1)` cannot produce two parts. -/
theorem rsplitLast_none_iff (k : String) :
    rsplitLast k = none ↔ charIn '.' k = false := by
  rw [rsplitLast, rsplitLastAux_none_iff, List.mem_reverse, charIn]
  simp

/-- Every group entry survives the filter-normalisation fold, and each
well-formed key lands in the group named by the part before its last
dot. -/
theorem filtersFold_ok (l : List (String × List String)) :
    ∀ acc, (∀ kv ∈ l, charIn '.' kv.1 = true) →
    ∃ d, filtersFold l acc = .ok d
      ∧ (∀ t x, x ∈ (dlookup acc t).getD [] → x ∈ (dlookup d t).getD [])
      ∧ (∀ kv ∈ l, ∃ t a, rsplitLast kv.1 = some (t, a)
          ∧ (a, kv.2) ∈ (dlookup d t).getD []) := by
  induction l with
  | nil =>
    intro acc _
    exact ⟨acc, rfl, fun t x hx => hx, by simp⟩
  | cons kv rest ih =>
    intro acc hall
    obtain ⟨k, v⟩ := kv
    have hk : charIn '.' k = true := hall (k, v) (by simp)
    rcases hs : rsplitLast k with _ | ⟨t0, a0⟩
    · rw [rsplitLast_none_iff] at hs
      rw [hs] at hk
      cases hk
    · have hrest : ∀ kv ∈ rest, charIn '.' kv.1 = true :=
        fun kv hkv => hall kv (by simp [hkv])
      obtain ⟨d, hok, hmono, hmem⟩ :=
        ih (pset acc t0 ((dlookup acc t0).getD [] ++ [(a0, v)])) hrest
      have hstep : ∀ t x, x ∈ (dlookup acc t).getD [] →
          x ∈ (dlookup (pset acc t0 ((dlookup acc t0).getD [] ++ [(a0, v)])) t).getD [] := by
        intro t x hx
        by_cases ht : t = t0
        · subst ht
          rw [dlookup_pset_self]
          simpa using Or.inl hx
        · rwa [dlookup_pset_ne _ _ _ _ ht]
      refine ⟨d, ?_, fun t x hx => hmono t x (hstep t x hx), ?_⟩
      · simp only [filtersFold, hs]
        exact hok
      · intro kv hkv
        rcases List.mem_cons.mp hkv with heq | hmemr
        · subst heq
          refine ⟨t0, a0, hs, hmono t0 (a0, v) ?_⟩
          rw [dlookup_pset_self]
          simp
        · exact hmem kv hmemr

/-- The fold raises `ValueError` at the first dotless key. -/
theorem filtersFold_err (pre : List (String × List String)) (k : String)
    (v : List String) (post : List (String × List String)) :
    ∀ acc, (∀ kv ∈ pre, charIn '.' kv.1 = true) → charIn '.' k = false →
    filtersFold (pre ++ (k, v) :: post) acc =
      .error (.valueError ("The filter parameter '" ++ k ++
        "' must be of the form 'filter[type.value][oper]'")) := by
  induction pre with
  | nil =>
    intro acc _ hk
    have hs : rsplitLast k = none := (rsplitLast_none_iff k).mpr hk
    simp [filtersFold, hs]
  | cons kv rest ih =>
    intro acc hall hk
    obtain ⟨k0, v0⟩ := kv
    have hk0 : charIn '.' k0 = true := hall (k0, v0) (by simp)
    rcases hs : rsplitLast k0 with _ | ⟨t0, a0⟩
    · rw [rsplitLast_none_iff] at hs
      rw [hs] at hk0
      cases hk0
    · have hrest : ∀ kv ∈ rest, charIn '.' kv.1 = true :=
        fun kv hkv => hall kv (by simp [hkv])
      simp only [List.cons_append, filtersFold, hs]
      exact ih _ hrest hk

/-- C8 (amended): a filter key without a dot makes `FetchingContext`
construction fail, but with a plain `ValueError` (surfaced by the generic
exception handler as HTTP 500), not with the 422 `InvalidParameter` /
`UnprocessableEntity` kind; every well-formed key is stored split at its
last dot into `(type, attribute-with-optional-operator)` under that
type's filter group. -/
theorem c8_filter_key_split :
    (∀ (i : Option String) (f : Option (List (String × FieldsParam))) (s : Option String)
       (pn ps pm : Option Int) (pre : List (String × List String)) (k : String)
       (v : List String) (post : List (String × List String)),
       (∀ kv ∈ pre, charIn '.' kv.1 = true) → charIn '.' k = false →
       FetchingContext.make i f (some (pre ++ (k, v) :: post)) s pn ps pm =
         .error (.valueError ("The filter parameter '" ++ k ++
           "' must be of the form 'filter[type.value][oper]'")))
    ∧ (∀ (i : Option String) (f : Option (List (String × FieldsParam))) (s : Option String)
         (pn ps pm : Option Int) (l : List (String × List String)),
        (∀ kv ∈ l, charIn '.' kv.1 = true) →
        ∃ ctx, FetchingContext.make i f (some l) s pn ps pm = .ok ctx
          ∧ ∀ kv ∈ l, ∃ t a, rsplitLast kv.1 = some (t, a)
              ∧ (a, kv.2) ∈ (dlookup ctx.filters t).getD []) := by
  constructor
  · intro i f s pn ps pm pre k v post hpre hk
    have herr := filtersFold_err pre k v post [] hpre hk
    simp [FetchingContext.make, herr]
  · intro i f s pn ps pm l hl
    obtain ⟨d, hok, _, hmem⟩ := filtersFold_ok l [] hl
    simp only [FetchingContext.make, Option.getD_some, hok, bind, Except.bind, pure, Except.pure]
    exact ⟨_, rfl, by simpa using hmem⟩

/-- C8 counterexample to the claim as stated: the dotless filter key
`nodot` makes construction fail with `ValueError` — mapped by the error
handler to HTTP 500 — not with the 422 `InvalidParameter` kind the spec
names. -/
theorem c8_dotless_key_is_valueerror :
    FetchingContext.make none none (some [("nodot", ["x"])]) none none none none =
      .error (.valueError "The filter parameter 'nodot' must be of the form 'filter[type.value][oper]'")
    ∧ httpStatus (.valueError "The filter parameter 'nodot' must be of the form 'filter[type.value][oper]'") = 500
    ∧ httpStatus (.valueError "The filter parameter 'nodot' must be of the form 'filter[type.value][oper]'") ≠ 422 := by
  refine ⟨rfl, rfl, by decide⟩

/-! ## Resource graph data model

`JsonApiDataMixin` objects (`data.py:82-105`): an object has a jsonapi
type and id, a self link, and named fields whose values are scalars,
a single related object, or a list of related objects. Object identity
is modelled by a heap keyed by `jsonapi_type + jsonapi_id`, which lets
the graph be cyclic; a `JsonApiRelationship` (`data.py:67-79`) carries
`(type_, id_)` and its `value` is the heap entry under that key (a
relationship built with `value=None` has `hasValue = false`). -/

/-- A `JsonApiRelationship`: `(type_, id_)` plus whether a resolved
`value` is attached. -/
structure RelS where
  type_ : String
  id_ : String
  hasValue : Bool
deriving DecidableEq, Repr

/-- A field value of a data object: scalar, one relationship, or a list
of relationships. -/
inductive FieldV where
  | fv (v : PyVal)
  | frel (r : RelS)
  | frels (rs : List RelS)
deriving DecidableEq, Repr

/-- A data object (one `JsonApiBaseModel` instance). -/
structure Node where
  jtype : String
  jid : String
  selfLink : String
  fields : List (String × FieldV)
deriving DecidableEq, Repr

/-- Mirrors `_included_key` / `res_key` (`data.py:298-299`, `jsonapi.py:397`). -/
def resKey (r : RelS) : String :=
  r.type_ ++ r.id_

/-- Mirrors `rel.resource_value` resolved against the heap. -/
def resourceValue (heap : List (String × Node)) (r : RelS) : Option Node :=
  if r.hasValue then dlookup heap (resKey r) else none

/-- Mirrors `JsonApiBaseModel._is_basemodel` (`data.py:212-219`): falsy values are
not relationships (so an empty relationship list is treated as a plain
attribute), a single related object always is, a non-empty list is. -/
def isBasemodel : FieldV → Bool
  | .fv _ => false
  | .frel _ => true
  | .frels rs => ¬rs.isEmpty

/-- The scalar stored when a field value lands among the attributes
(only scalars and the falsy empty relationship list can). -/
def fieldToAttr : FieldV → PyVal
  | .fv v => v
  | .frels _ => .vList []
  | .frel _ => .vNone

/-- Python `str(...)` on the values that can override `id`/`type`. -/
def pyStr : PyVal → String
  | .vStr s => s
  | .vInt n => toString n
  | .vBool b => if b then "True" else "False"
  | .vDt s => s
  | .vNone => "None"
  | .vList _ => "[]"

/-- Mirrors `JsonApiBaseModel.jsonapi_attributes` (`data.py:184-197`): split the
fields into attributes and relationships, honouring the include set
(empty = no restriction) and the exclude set. -/
def jsonapi_attributes (node : Node) (inc exc : List String) :
    List (String × PyVal) × List (String × FieldV) :=
  node.fields.foldl (fun acc kv =>
    let (attrs, rels) := acc
    let (k, v) := kv
    if (¬inc.isEmpty ∧ k ∉ inc) ∨ k ∈ exc then acc
    else if isBasemodel v then (attrs, rels ++ [(k, v)])
    else if inc.isEmpty ∨ k ∈ inc then (attrs ++ [(k, fieldToAttr v)], rels)
    else acc) ([], [])

/-- Mirrors `_remove_prefix` (`jsonapi.py:414-416`): keep the names under the
prefix, strip it, and drop any name that still contains a dot. -/
def remove_pfx (names : List String) (pfx : String) : List String :=
  ((names.filter (fun i => strStarts i pfx)).map (fun i => strDrop i pfx.length)).filter
    (fun n => ¬charIn '.' n)

/-- A JSON:API resource identifier `(type, id)` (`jsonapi.py:352-362`). -/
abbrev ResId : Type := String × String

/-- The `data` of one relationship entry: one identifier or a list. -/
inductive RelData where
  | one (ri : ResId)
  | many (ris : List ResId)
deriving DecidableEq, Repr

/-- A rendered JSON:API resource (`resource_data` at `jsonapi.py:254-260`;
the source also copies a non-empty accumulator into the dict before
`Resource(**data)` validates it away, which the model omits). -/
structure RRes where
  rtype : String
  rid : String
  attrs : List (String × PyVal)
  relationships : List (String × RelData)
  links : String
deriving DecidableEq, Repr

/-- The included-resource accumulator: key `jsonapi_type + jsonapi_id`,
value `none` while the resource is being rendered (the in-progress
tombstone) and the rendered resource afterwards. -/
abbrev PyDict : Type := List (String × Option RRes)

/-- Mirrors `_add_to_included` (`jsonapi.py:387-411`), generic in the renderer it
recurses into: a key already present (tombstone included) is left alone;
otherwise, if the relationship carries a value, insert the tombstone,
render the value under the extended prefix with the prefix-scoped field
names unioned in, and overwrite the tombstone with the result. -/
def includeStep (heap : List (String × Node)) (fieldNames : String → List String)
    (render : Node → PyDict → String → List String → List String → Option (RRes × PyDict))
    (included : PyDict) (key : String) (res : RelS) (inc exc : List String)
    (pfx : String) : Option PyDict :=
  match dlookup included (resKey res) with
  | some _ => some included
  | none =>
    match resourceValue heap res with
    | none => some included
    | some node =>
      let included1 : PyDict := pset included (resKey res) none
      let newPfx := if pfx ≠ "" then pfx ++ key ++ "." else key ++ "."
      let fns := fieldNames res.type_
      let filtered := if ¬fns.isEmpty then sunion (fns.map (fun n => newPfx ++ n)) inc else inc
      Option.map (fun p => pset p.2 (resKey res) (some p.1))
        (render node included1 newPfx filtered exc)

/-- The inner loop over one list-valued relationship
(`jsonapi.py:242-248`): collect identifiers and thread the accumulator. -/
def relValsFold (heap : List (String × Node)) (fieldNames : String → List String)
    (render : Node → PyDict → String → List String → List String → Option (RRes × PyDict))
    (key : String) : List RelS → List ResId → PyDict → List String → List String → String →
    Option (List ResId × PyDict)
  | [], ids, included, _, _, _ => some (ids, included)
  | r :: rest, ids, included, inc, exc, pfx =>
    match includeStep heap fieldNames render included key r inc exc pfx with
    | none => none
    | some included' =>
      relValsFold heap fieldNames render key rest (ids ++ [(r.type_, r.id_)]) included' inc exc pfx

/-- The relationship loop of `to_ressource_data` (`jsonapi.py:238-252`):
skip excluded keys, build the relationship entry, and trigger inclusion
for each target (a scalar can never appear here — `jsonapi_attributes`
routes scalars to the attributes — matching the source's `rel is None`
guard). -/
def relsFold (heap : List (String × Node)) (fieldNames : String → List String)
    (render : Node → PyDict → String → List String → List String → Option (RRes × PyDict)) :
    List (String × FieldV) → List (String × RelData) → PyDict → List String → List String →
    String → List String → Option (List (String × RelData) × PyDict)
  | [], relsAcc, included, _, _, _, _ => some (relsAcc, included)
  | (key, rel) :: rest, relsAcc, included, inc, exc, pfx, tbe =>
    if key ∈ tbe then relsFold heap fieldNames render rest relsAcc included inc exc pfx tbe
    else
      match rel with
      | .fv _ => relsFold heap fieldNames render rest relsAcc included inc exc pfx tbe
      | .frel r =>
        match includeStep heap fieldNames render included key r inc exc pfx with
        | none => none
        | some included' =>
          relsFold heap fieldNames render rest (pset relsAcc key (.one (r.type_, r.id_)))
            included' inc exc pfx tbe
      | .frels rs =>
        match relValsFold heap fieldNames render key rs [] included inc exc pfx with
        | none => none
        | some (ids, included') =>
          relsFold heap fieldNames render rest (pset relsAcc key (.many ids))
            included' inc exc pfx tbe

/-- The `type` attribute override (`jsonapi.py:221-224`): a `type` key in
the attribute mapping replaces the object's own `jsonapi_type` and is
popped from the attributes. -/
def typeOverride (attrs : List (String × PyVal)) (dflt : String) :
    String × List (String × PyVal) :=
  match dlookup attrs "type" with
  | some v => (pyStr v, dremove attrs "type")
  | none => (dflt, attrs)

/-- The `id` attribute override (`jsonapi.py:225-228`), with `str()`
applied to the popped value. -/
def idOverride (attrs : List (String × PyVal)) (dflt : String) :
    String × List (String × PyVal) :=
  match dlookup attrs "id" with
  | some v => (pyStr v, dremove attrs "id")
  | none => (dflt, attrs)

/-- Mirrors `to_ressource_data` (`jsonapi.py:203-267`): split the object into
attributes and relationships under the prefix-stripped include/exclude
sets, default the include set to the relationship names minus the
excluded ones, apply the `type`/`id` attribute overrides, then process
every relationship (recursing through `_add_to_included` on a strictly
smaller fuel). `none` means the fuel ran out — the adequacy theorem
shows enough fuel exists for every graph, cyclic ones included. -/
def to_ressource_data (heap : List (String × Node)) (fieldNames : String → List String) :
    Nat → Node → PyDict → String → List String → List String → Option (RRes × PyDict)
  | 0, _, _, _, _, _ => none
  | fuel + 1, node, included, pfx, inc, exc =>
    let ar := jsonapi_attributes node (remove_pfx inc pfx) (remove_pfx exc pfx)
    let inc1 := if inc.isEmpty then setMinus (keysOf ar.2) exc else inc
    let tp := typeOverride ar.1 node.jtype
    let ip := idOverride tp.2 node.jid
    let tbe :=
      if pfx ≠ "" then (exc.filter (fun k => strIn pfx k)).map (fun k => strDrop k pfx.length)
      else exc.filter (fun k => ¬charIn '.' k)
    Option.map (fun p =>
        ({ rtype := tp.1, rid := ip.1, attrs := ip.2,
           relationships := p.1, links := node.selfLink }, p.2))
      (relsFold heap fieldNames
        (fun node' d pfx' inc' exc' => to_ressource_data heap fieldNames fuel node' d pfx' inc' exc')
        ar.2 [] included inc1 exc pfx tbe)

/-! ### Accumulator invariants -/

theorem mem_keysOf_pset {α : Type} (d : List (String × α)) (k : String) (v : α) (a : String) :
    a ∈ keysOf (pset d k v) ↔ a = k ∨ a ∈ keysOf d := by
  induction d with
  | nil => simp [pset, keysOf]
  | cons kv rest ih =>
    obtain ⟨k', v'⟩ := kv
    simp only [pset]
    by_cases h : k' = k
    · rw [if_pos h]
      subst h
      simp [keysOf]
    · rw [if_neg h]
      simp only [keysOf, List.map_cons, List.mem_cons] at ih ⊢
      rw [ih]
      tauto

theorem nodup_keysOf_pset {α : Type} (d : List (String × α)) (k : String) (v : α)
    (h : (keysOf d).Nodup) : (keysOf (pset d k v)).Nodup := by
  induction d with
  | nil => simp [pset, keysOf]
  | cons kv rest ih =>
    obtain ⟨k', v'⟩ := kv
    simp only [keysOf, List.map_cons, List.nodup_cons] at h
    simp only [pset]
    by_cases hk : k' = k
    · rw [if_pos hk]
      subst hk
      simpa [keysOf] using h
    · rw [if_neg hk]
      simp only [keysOf, List.map_cons, List.nodup_cons]
      refine ⟨?_, ih h.2⟩
      intro hmem
      rcases (mem_keysOf_pset rest k v k').mp hmem with rfl | hmem'
      · exact hk rfl
      · exact h.1 hmem' 

theorem dlookup_eq_none_iff {α : Type} (d : List (String × α)) (k : String) :
    dlookup d k = none ↔ k ∉ keysOf d := by
  induction d with
  | nil => simp [dlookup, keysOf]
  | cons kv rest ih =>
    obtain ⟨k', v'⟩ := kv
    by_cases h : k' = k
    · subst h
      simp [dlookup, keysOf]
    · simp [dlookup, keysOf, h, ih, Ne.symm h]

theorem dlookup_some_mem {α : Type} (d : List (String × α)) (k : String) (v : α)
    (h : dlookup d k = some v) : k ∈ keysOf d := by
  by_contra hmem
  rw [← dlookup_eq_none_iff] at hmem
  rw [h] at hmem
  cases hmem

/-- Keys of the heap. -/
def heapKeysF (heap : List (String × Node)) : Finset String :=
  (heap.map Prod.fst).toFinset

/-- Keys of the included-resource accumulator. -/
def keysF (d : PyDict) : Finset String :=
  (keysOf d).toFinset

/-- How many heap entries are not yet in the accumulator: the measure
that bounds the serializer's recursion. -/
def missingCount (heap : List (String × Node)) (d : PyDict) : Nat :=
  (heapKeysF heap \ keysF d).card

theorem keysF_pset (d : PyDict) (k : String) (v : Option RRes) :
    keysF (pset d k v) = insert k (keysF d) := by
  ext a
  simp [keysF, mem_keysOf_pset]

/-- One dict-extension step of the serializer: keys only grow, new keys
come from the heap, and duplicate-freedom is preserved. -/
def DictStep (heap : List (String × Node)) (d d' : PyDict) : Prop :=
  keysF d ⊆ keysF d' ∧ keysF d' ⊆ keysF d ∪ heapKeysF heap
    ∧ ((keysOf d).Nodup → (keysOf d').Nodup)

theorem DictStep.rfl {heap : List (String × Node)} {d : PyDict} : DictStep heap d d :=
  ⟨le_refl _, Finset.subset_union_left, fun h => h⟩

theorem DictStep.trans {heap : List (String × Node)} {d₁ d₂ d₃ : PyDict}
    (h₁ : DictStep heap d₁ d₂) (h₂ : DictStep heap d₂ d₃) : DictStep heap d₁ d₃ := by
  refine ⟨h₁.1.trans h₂.1, ?_, fun h => h₂.2.2 (h₁.2.2 h)⟩
  refine h₂.2.1.trans ?_
  exact Finset.union_subset (h₁.2.1.trans (by simp)) Finset.subset_union_right

/-- Every renderer handed to `includeStep` satisfies `DictStep` on
success. -/
def RenderMono (heap : List (String × Node))
    (render : Node → PyDict → String → List String → List String → Option (RRes × PyDict)) :
    Prop :=
  ∀ node d pfx inc exc r d', render node d pfx inc exc = some (r, d') → DictStep heap d d'

theorem includeStep_mono {heap : List (String × Node)} {fieldNames : String → List String}
    {render : Node → PyDict → String → List String → List String → Option (RRes × PyDict)}
    (hm : RenderMono heap render) (included : PyDict) (key : String) (res : RelS)
    (inc exc : List String) (pfx : String) (d' : PyDict)
    (h : includeStep heap fieldNames render included key res inc exc pfx = some d') :
    DictStep heap included d' := by
  unfold includeStep at h
  rcases hlk : dlookup included (resKey res) with _ | v
  · rw [hlk] at h
    rcases hrv : resourceValue heap res with _ | node
    · rw [hrv] at h
      simp only [Option.some.injEq] at h
      subst h
      exact DictStep.rfl
    · rw [hrv] at h
      simp only [Option.map_eq_some'] at h
      obtain ⟨⟨ri, d₂⟩, hrender, hd'⟩ := h
      subst hd'
      have hkey : resKey res ∈ heapKeysF heap := by
        unfold resourceValue at hrv
        rcases hhv : res.hasValue with _ | _
        · rw [hhv] at hrv
          simp at hrv
        · rw [hhv] at hrv
          simp only [if_pos rfl] at hrv
          have := dlookup_some_mem heap (resKey res) node hrv
          simpa [heapKeysF, keysOf] using this
      have hstep := hm node (pset included (resKey res) none) _ _ _ _ _ hrender
      obtain ⟨hs1, hs2, hs3⟩ := hstep
      rw [keysF_pset] at hs1 hs2
      refine ⟨?_, ?_, ?_⟩
      · rw [keysF_pset]
        exact (Finset.subset_insert _ _).trans (hs1.trans (Finset.subset_insert _ _))
      · rw [keysF_pset]
        intro a ha
        rcases Finset.mem_insert.mp ha with rfl | ha
        · exact Finset.mem_union_right _ hkey
        · rcases Finset.mem_union.mp (hs2 ha) with hval | hval
          · rcases Finset.mem_insert.mp hval with rfl | hval
            · exact Finset.mem_union_right _ hkey
            · exact Finset.mem_union_left _ hval
          · exact Finset.mem_union_right _ hval
      · intro hnd
        exact nodup_keysOf_pset _ _ _ (hs3 (nodup_keysOf_pset _ _ _ hnd))
  · rw [hlk] at h
    simp only [Option.some.injEq] at h
    subst h
    exact DictStep.rfl

theorem relValsFold_mono {heap : List (String × Node)} {fieldNames : String → List String}
    {render : Node → PyDict → String → List String → List String → Option (RRes × PyDict)}
    (hm : RenderMono heap render) (key : String) (rs : List RelS) :
    ∀ ids included inc exc pfx ids' d',
    relValsFold heap fieldNames render key rs ids included inc exc pfx = some (ids', d') →
    DictStep heap included d' := by
  induction rs with
  | nil =>
    intro ids included inc exc pfx ids' d' h
    simp only [relValsFold, Option.some.injEq, Prod.mk.injEq] at h
    rw [← h.2]
    exact DictStep.rfl
  | cons r rest ih =>
    intro ids included inc exc pfx ids' d' h
    simp only [relValsFold] at h
    rcases hstep : includeStep heap fieldNames render included key r inc exc pfx with _ | d₁
    · rw [hstep] at h
      cases h
    · rw [hstep] at h
      exact (includeStep_mono hm included key r inc exc pfx d₁ hstep).trans
        (ih _ _ _ _ _ _ _ h)

theorem relsFold_mono {heap : List (String × Node)} {fieldNames : String → List String}
    {render : Node → PyDict → String → List String → List String → Option (RRes × PyDict)}
    (hm : RenderMono heap render) (rels : List (String × FieldV)) :
    ∀ relsAcc included inc exc pfx tbe rels' d',
    relsFold heap fieldNames render rels relsAcc included inc exc pfx tbe = some (rels', d') →
    DictStep heap included d' := by
  induction rels with
  | nil =>
    intro relsAcc included inc exc pfx tbe rels' d' h
    simp only [relsFold, Option.some.injEq, Prod.mk.injEq] at h
    rw [← h.2]
    exact DictStep.rfl
  | cons kv rest ih =>
    intro relsAcc included inc exc pfx tbe rels' d' h
    obtain ⟨key, rel⟩ := kv
    simp only [relsFold] at h
    by_cases htbe : key ∈ tbe
    · rw [if_pos htbe] at h
      exact ih _ _ _ _ _ _ _ _ h
    · rw [if_neg htbe] at h
      cases rel with
      | fv v =>
        dsimp only at h
        exact ih _ _ _ _ _ _ _ _ h
      | frel r =>
        dsimp only at h
        rcases hstep : includeStep heap fieldNames render included key r inc exc pfx with _ | d₁
        · rw [hstep] at h
          cases h
        · rw [hstep] at h
          exact (includeStep_mono hm included key r inc exc pfx d₁ hstep).trans
            (ih _ _ _ _ _ _ _ _ h)
      | frels rs =>
        dsimp only at h
        rcases hstep : relValsFold heap fieldNames render key rs [] included inc exc pfx
          with _ | ⟨ids, d₁⟩
        · rw [hstep] at h
          cases h
        · rw [hstep] at h
          exact (relValsFold_mono hm key rs _ _ _ _ _ _ _ hstep).trans
            (ih _ _ _ _ _ _ _ _ h)

theorem to_ressource_data_mono (heap : List (String × Node)) (fieldNames : String → List String) :
    ∀ fuel, RenderMono heap (fun node d pfx inc exc =>
      to_ressource_data heap fieldNames fuel node d pfx inc exc) := by
  intro fuel
  induction fuel with
  | zero =>
    intro node d pfx inc exc r d' h
    simp [to_ressource_data] at h
  | succ fuel ih =>
    intro node d pfx inc exc r d' h
    simp only [to_ressource_data, Option.map_eq_some'] at h
    obtain ⟨⟨rels', inc'⟩, hrf, hpair⟩ := h
    have hd' : inc' = d' := congrArg Prod.snd hpair
    subst hd'
    exact relsFold_mono ih _ _ _ _ _ _ _ _ _ hrf

theorem isSome_omap {α β : Type} (f : α → β) (x : Option α) :
    (Option.map f x).isSome = x.isSome := by
  cases x <;> rfl

theorem missingCount_le_of_subset (heap : List (String × Node)) {d d' : PyDict}
    (h : keysF d ⊆ keysF d') : missingCount heap d' ≤ missingCount heap d :=
  Finset.card_le_card (Finset.sdiff_subset_sdiff (le_refl _) h)

theorem missingCount_pset_lt (heap : List (String × Node)) (d : PyDict) (k : String)
    (v : Option RRes) (hk : k ∈ heapKeysF heap) (hnot : k ∉ keysF d) :
    missingCount heap (pset d k v) < missingCount heap d := by
  unfold missingCount
  rw [keysF_pset]
  have hset : heapKeysF heap \ insert k (keysF d) = (heapKeysF heap \ keysF d).erase k := by
    ext a
    simp only [Finset.mem_sdiff, Finset.mem_insert, Finset.mem_erase]
    tauto
  rw [hset, Finset.card_erase_of_mem (Finset.mem_sdiff.mpr ⟨hk, hnot⟩)]
  have hpos : 0 < (heapKeysF heap \ keysF d).card :=
    Finset.card_pos.mpr ⟨k, Finset.mem_sdiff.mpr ⟨hk, hnot⟩⟩
  omega

/-- A renderer succeeds whenever the number of heap entries missing from
the accumulator is below `n`. -/
def RenderAdeq (heap : List (String × Node)) (n : Nat)
    (render : Node → PyDict → String → List String → List String → Option (RRes × PyDict)) :
    Prop :=
  ∀ node d pfx inc exc, (keysOf d).Nodup → missingCount heap d < n →
    (render node d pfx inc exc).isSome

theorem includeStep_adequate {heap : List (String × Node)} {fieldNames : String → List String}
    {render : Node → PyDict → String → List String → List String → Option (RRes × PyDict)}
    {n : Nat} (ha : RenderAdeq heap n render) (included : PyDict) (key : String) (res : RelS)
    (inc exc : List String) (pfx : String) (hnd : (keysOf included).Nodup)
    (hle : missingCount heap included ≤ n) :
    (includeStep heap fieldNames render included key res inc exc pfx).isSome := by
  unfold includeStep
  rcases hlk : dlookup included (resKey res) with _ | v
  · rcases hrv : resourceValue heap res with _ | node
    · simp
    · have hkey : resKey res ∈ heapKeysF heap := by
        unfold resourceValue at hrv
        rcases hhv : res.hasValue with _ | _
        · rw [hhv] at hrv
          simp at hrv
        · rw [hhv] at hrv
          simp only [if_pos rfl] at hrv
          have := dlookup_some_mem heap (resKey res) node hrv
          simpa [heapKeysF, keysOf] using this
      have hnot : resKey res ∉ keysF included := by
        simp only [keysF, List.mem_toFinset]
        exact (dlookup_eq_none_iff included (resKey res)).mp hlk
      have hlt : missingCount heap (pset included (resKey res) none) < n :=
        lt_of_lt_of_le (missingCount_pset_lt heap included (resKey res) none hkey hnot) hle
      have hrender := ha node (pset included (resKey res) none)
        (if pfx ≠ "" then pfx ++ key ++ "." else key ++ ".")
        (if ¬(fieldNames res.type_).isEmpty then
          sunion ((fieldNames res.type_).map
            (fun nm => (if pfx ≠ "" then pfx ++ key ++ "." else key ++ ".") ++ nm)) inc
         else inc) exc
        (nodup_keysOf_pset _ _ _ hnd) hlt
      rw [isSome_omap]
      exact hrender
  · simp

theorem relValsFold_adequate {heap : List (String × Node)} {fieldNames : String → List String}
    {render : Node → PyDict → String → List String → List String → Option (RRes × PyDict)}
    {n : Nat} (hm : RenderMono heap render) (ha : RenderAdeq heap n render)
    (key : String) (rs : List RelS) :
    ∀ ids included inc exc pfx, (keysOf included).Nodup → missingCount heap included ≤ n →
    (relValsFold heap fieldNames render key rs ids included inc exc pfx).isSome := by
  induction rs with
  | nil =>
    intro ids included inc exc pfx _ _
    simp [relValsFold]
  | cons r rest ih =>
    intro ids included inc exc pfx hnd hle
    simp only [relValsFold]
    have hsome := @includeStep_adequate heap fieldNames render n ha included key r inc exc pfx hnd hle
    rcases hstep : includeStep heap fieldNames render included key r inc exc pfx with _ | d₁
    · rw [hstep] at hsome
      cases hsome
    · obtain ⟨hs1, _, hs3⟩ := includeStep_mono hm included key r inc exc pfx d₁ hstep
      exact ih _ _ _ _ _ (hs3 hnd) (le_trans (missingCount_le_of_subset heap hs1) hle)

theorem relsFold_adequate {heap : List (String × Node)} {fieldNames : String → List String}
    {render : Node → PyDict → String → List String → List String → Option (RRes × PyDict)}
    {n : Nat} (hm : RenderMono heap render) (ha : RenderAdeq heap n render)
    (rels : List (String × FieldV)) :
    ∀ relsAcc included inc exc pfx tbe, (keysOf included).Nodup →
    missingCount heap included ≤ n →
    (relsFold heap fieldNames render rels relsAcc included inc exc pfx tbe).isSome := by
  induction rels with
  | nil =>
    intro relsAcc included inc exc pfx tbe _ _
    simp [relsFold]
  | cons kv rest ih =>
    intro relsAcc included inc exc pfx tbe hnd hle
    obtain ⟨key, rel⟩ := kv
    simp only [relsFold]
    by_cases htbe : key ∈ tbe
    · rw [if_pos htbe]
      exact ih _ _ _ _ _ _ hnd hle
    · rw [if_neg htbe]
      cases rel with
      | fv v =>
        dsimp only
        exact ih _ _ _ _ _ _ hnd hle
      | frel r =>
        dsimp only
        have hsome := @includeStep_adequate heap fieldNames render n ha included key r inc exc pfx hnd hle
        rcases hstep : includeStep heap fieldNames render included key r inc exc pfx with _ | d₁
        · rw [hstep] at hsome
          cases hsome
        · obtain ⟨hs1, _, hs3⟩ := includeStep_mono hm included key r inc exc pfx d₁ hstep
          exact ih _ _ _ _ _ _ (hs3 hnd) (le_trans (missingCount_le_of_subset heap hs1) hle)
      | frels rs =>
        dsimp only
        have hsome := @relValsFold_adequate heap fieldNames render n hm ha key rs [] included
          inc exc pfx hnd hle
        rcases hstep : relValsFold heap fieldNames render key rs [] included inc exc pfx
          with _ | ⟨ids, d₁⟩
        · rw [hstep] at hsome
          cases hsome
        · obtain ⟨hs1, _, hs3⟩ := relValsFold_mono hm key rs _ _ _ _ _ _ _ hstep
          exact ih _ _ _ _ _ _ (hs3 hnd) (le_trans (missingCount_le_of_subset heap hs1) hle)

theorem to_ressource_data_adequate (heap : List (String × Node))
    (fieldNames : String → List String) :
    ∀ fuel, RenderAdeq heap fuel (fun node d pfx inc exc =>
      to_ressource_data heap fieldNames fuel node d pfx inc exc) := by
  intro fuel
  induction fuel with
  | zero =>
    intro node d pfx inc exc _ hlt
    exact absurd hlt (by omega)
  | succ fuel ih =>
    intro node d pfx inc exc hnd hlt
    simp only [to_ressource_data]
    rw [isSome_omap]
    exact relsFold_adequate (to_ressource_data_mono heap fieldNames fuel) ih _ _ _ _ _ _ _
      hnd (by omega)

/-- C1: serialization of any resource graph — cyclic ones included —
terminates with enough fuel (`missingCount`, the number of heap entries
not yet in the accumulator, bounds the recursion depth, so no graph
needs more than `heap size + 1` fuel), the accumulator never holds a
`(jsonapi_type + jsonapi_id)` key twice, keys only accumulate, and
`_add_to_included` leaves the accumulator untouched whenever the key is
already present — the in-progress `none` tombstone included — so no
resource is ever re-entered. -/
theorem c1_included_dedup_and_termination
    (heap : List (String × Node)) (fieldNames : String → List String) (node : Node)
    (d : PyDict) (pfx : String) (inc exc : List String) (fuel : Nat)
    (hnd : (keysOf d).Nodup) (hfuel : missingCount heap d < fuel) :
    (∃ r d', to_ressource_data heap fieldNames fuel node d pfx inc exc = some (r, d')
       ∧ (keysOf d').Nodup ∧ keysF d ⊆ keysF d')
    ∧ (∀ key res, (dlookup d (resKey res)).isSome →
        includeStep heap fieldNames
          (fun node' d' pfx' inc' exc' =>
            to_ressource_data heap fieldNames fuel node' d' pfx' inc' exc')
          d key res inc exc pfx = some d) := by
  constructor
  · have hs : (to_ressource_data heap fieldNames fuel node d pfx inc exc).isSome :=
      to_ressource_data_adequate heap fieldNames fuel node d pfx inc exc hnd hfuel
    rcases h : to_ressource_data heap fieldNames fuel node d pfx inc exc with _ | ⟨r, d'⟩
    · rw [h] at hs
      cases hs
    · have hstep := to_ressource_data_mono heap fieldNames fuel node d pfx inc exc r d' h
      exact ⟨r, d', rfl, hstep.2.2 hnd, hstep.1⟩
  · intro key res hlk
    unfold includeStep
    rcases h : dlookup d (resKey res) with _ | v
    · rw [h] at hlk
      cases hlk
    · rfl

/-- The `A` side of a two-node cycle (`A → B → A`). -/
def nodeA : Node :=
  { jtype := "A", jid := "1", selfLink := "https://monsite.com/a",
    fields := [("b", .frel ⟨"B", "2", true⟩), ("name", .fv (.vStr "alice"))] }

/-- The `B` side of a two-node cycle (`A → B → A`). -/
def nodeB : Node :=
  { jtype := "B", jid := "2", selfLink := "https://monsite.com/b",
    fields := [("a", .frel ⟨"A", "1", true⟩)] }

/-- The cyclic two-resource heap `A ↔ B`. -/
def heapEx : List (String × Node) :=
  [("A1", nodeA), ("B2", nodeB)]

/-- Witness for C1 on the cyclic heap `A ↔ B` with fuel 3 and an empty
accumulator. -/
theorem c1_included_dedup_and_termination_witness :
    (keysOf ([] : PyDict)).Nodup ∧ missingCount heapEx [] < 3 ∧
    ((∃ r d', to_ressource_data heapEx (fun _ => []) 3 nodeA [] "" [] [] = some (r, d')
        ∧ (keysOf d').Nodup ∧ keysF ([] : PyDict) ⊆ keysF d')
      ∧ (∀ key res, (dlookup ([] : PyDict) (resKey res)).isSome →
          includeStep heapEx (fun _ => [])
            (fun node' d' pfx' inc' exc' =>
              to_ressource_data heapEx (fun _ => []) 3 node' d' pfx' inc' exc')
            [] key res [] [] "" = some [])) :=
  ⟨by simp [keysOf], by decide,
   c1_included_dedup_and_termination heapEx (fun _ => []) nodeA [] "" [] [] 3
     (by simp [keysOf]) (by decide)⟩

/-! ## TopLevel documents and pagination attachment -/

/-- A pagination link: `nr_url(request.path, {"page[number]": n},
merge_query=True)` modelled as the request path plus the page-number
override. -/
structure LinkS where
  path : String
  pageNumber : Int
deriving DecidableEq, Repr

/-- A `meta` entry value: the `count` integer or the `pagination`
object. -/
inductive MetaVal where
  | mInt (n : Int)
  | mPag (page pages per_page : Int)
deriving DecidableEq, Repr

/-- Top-level `data`: one resource object or an array of them. -/
inductive TLData where
  | res (r : RRes)
  | list (rs : List RRes)
deriving DecidableEq, Repr

/-- A jsonapi `TopLevel` document (`data`, optional `included`, optional
`meta` and `links` dicts). -/
structure TopLevelS where
  data : TLData
  included : Option (List RRes)
  meta : Option (List (String × MetaVal))
  links : Option (List (String × LinkS))
deriving DecidableEq, Repr

/-- Mirrors `FetchingContext.add_pagination` (`fetching.py:186-207`): links are
touched only under `total > 1` — then `prev`/`next` are set when
`has_prev`/`has_next` — and `meta.count` / `meta.pagination` are always
set. -/
def add_pagination (reqPath : String) (toplevel : TopLevelS) (pagination : CursorPagination) :
    TopLevelS :=
  let tl1 :=
    if pagination.total > 1 then
      let links0 := toplevel.links.getD []
      let links1 :=
        if pagination.has_prev then
          pset links0 "prev" ⟨reqPath, (pagination.prev_num).getD 0⟩
        else links0
      let links2 :=
        if pagination.has_next then
          pset links1 "next" ⟨reqPath, (pagination.next_num).getD 0⟩
        else links1
      { toplevel with links := some links2 }
    else toplevel
  let meta0 := tl1.meta.getD []
  let meta1 := pset meta0 "count" (.mInt pagination.total)
  let meta2 := pset meta1 "pagination"
    (.mPag pagination.page pagination.pages pagination.per_page)
  { tl1 with meta := some meta2 }

/-- C7 (amended): on a document without prior links, `add_pagination`
attaches the `prev` link iff `total > 1` and `has_prev`, the `next` link
iff `total > 1` and `has_next` (the whole links block is gated on
`total > 1`, not on `has_prev`/`has_next` alone), and always attaches
`meta.count = total` and `meta.pagination = {page, pages, per_page}`. -/
theorem c7_add_pagination_links_meta (reqPath : String) (toplevel : TopLevelS)
    (pagination : CursorPagination) (hlinks : toplevel.links = none) :
    ((dlookup ((add_pagination reqPath toplevel pagination).links.getD []) "prev").isSome
      ↔ pagination.total > 1 ∧ pagination.has_prev = true)
    ∧ ((dlookup ((add_pagination reqPath toplevel pagination).links.getD []) "next").isSome
      ↔ pagination.total > 1 ∧ pagination.has_next = true)
    ∧ dlookup ((add_pagination reqPath toplevel pagination).meta.getD []) "count"
        = some (.mInt pagination.total)
    ∧ dlookup ((add_pagination reqPath toplevel pagination).meta.getD []) "pagination"
        = some (.mPag pagination.page pagination.pages pagination.per_page) := by
  unfold add_pagination
  have hmeta : ∀ m0 : List (String × MetaVal),
      dlookup (pset (pset m0 "count" (.mInt pagination.total)) "pagination"
        (.mPag pagination.page pagination.pages pagination.per_page)) "count"
        = some (.mInt pagination.total)
      ∧ dlookup (pset (pset m0 "count" (.mInt pagination.total)) "pagination"
        (.mPag pagination.page pagination.pages pagination.per_page)) "pagination"
        = some (.mPag pagination.page pagination.pages pagination.per_page) := by
    intro m0
    constructor
    · rw [dlookup_pset_ne _ _ _ _ (by decide), dlookup_pset_self]
    · rw [dlookup_pset_self]
  by_cases ht : pagination.total > 1
  · by_cases hp : pagination.has_prev <;> by_cases hn : pagination.has_next <;>
      simp [ht, hp, hn, hlinks, pset, dlookup] <;> exact hmeta _
  · simp [ht, hlinks, pset, dlookup]
    exact hmeta _

/-- Witness for C7 at `total = 5, page = 2, per_page = 2` on an empty
document. -/
theorem c7_add_pagination_links_meta_witness :
    (TopLevelS.mk (.list []) none none none).links = none ∧
    (((dlookup ((add_pagination "/p" (TopLevelS.mk (.list []) none none none)
          (CursorPagination.mk 5 2 2)).links.getD []) "prev").isSome
        ↔ (CursorPagination.mk 5 2 2).total > 1 ∧ (CursorPagination.mk 5 2 2).has_prev = true)
      ∧ (((dlookup ((add_pagination "/p" (TopLevelS.mk (.list []) none none none)
          (CursorPagination.mk 5 2 2)).links.getD []) "next").isSome
        ↔ (CursorPagination.mk 5 2 2).total > 1 ∧ (CursorPagination.mk 5 2 2).has_next = true))
      ∧ dlookup ((add_pagination "/p" (TopLevelS.mk (.list []) none none none)
          (CursorPagination.mk 5 2 2)).meta.getD []) "count"
          = some (.mInt (CursorPagination.mk 5 2 2).total)
      ∧ dlookup ((add_pagination "/p" (TopLevelS.mk (.list []) none none none)
          (CursorPagination.mk 5 2 2)).meta.getD []) "pagination"
          = some (.mPag (CursorPagination.mk 5 2 2).page (CursorPagination.mk 5 2 2).pages
              (CursorPagination.mk 5 2 2).per_page)) :=
  ⟨rfl, c7_add_pagination_links_meta "/p" (TopLevelS.mk (.list []) none none none)
    (CursorPagination.mk 5 2 2) rfl⟩

/-- C7 counterexample to the claim as stated: with `total = 1, page = 2,
per_page = 1` we have `has_prev = true`, yet no `prev` link is attached
because the whole links block is gated on `total > 1`. -/
theorem c7_prev_link_missing_despite_has_prev :
    (CursorPagination.mk 1 2 1).has_prev = true
    ∧ (add_pagination "/p" (TopLevelS.mk (.list []) none none none)
        (CursorPagination.mk 1 2 1)).links = none := by
  constructor
  · decide
  · rfl

/-! ## Multi-connection fan-out merge (`jsonapi.py:298-312`) -/

/-- Mirrors `for r in tp.data` over one toplevel's data (the fan-out path always
carries arrays). -/
def tlDataList : TLData → List RRes
  | .res r => [r]
  | .list rs => rs

/-- The resources contributed by `for i in tp.included` under the
truthiness guard `if tp.included` (absent and empty contribute
nothing). -/
def includedList (tp : TopLevelS) : List RRes :=
  match tp.included with
  | some l => l
  | none => []

/-- Mirrors `i.type + i.id`, the merge key of the dict comprehension at
`jsonapi.py:305`. -/
def resKeyOf (r : RRes) : String :=
  r.rtype ++ r.rid

/-- The dict comprehension `{i.type + i.id: i for tp in _toplevels if
tp.included for i in tp.included}` (`jsonapi.py:305`): Python dict
building, so a repeated key keeps its first position but its value is
overwritten by each later occurrence. -/
def mergeIncludedDict (tps : List TopLevelS) : List (String × RRes) :=
  (tps.flatMap includedList).foldl (fun d i => pset d (resKeyOf i) i) []

/-- Mirrors `get_toplevel_from_query`'s iterable-connection-manager branch
(`jsonapi.py:300-312`) applied to the per-connection toplevels: data
concatenated in connection order, included maps merged by key, and
meta/links taken verbatim from a single contributing connection or
reduced to `{"count": len(data)}` and `{}` otherwise. -/
def merge_toplevels (tps : List TopLevelS) : TopLevelS :=
  let data := tps.flatMap (fun tp => tlDataList tp.data)
  let included := mergeIncludedDict tps
  let meta : Option (List (String × MetaVal)) :=
    match tps with
    | [tp] => tp.meta
    | _ => some [("count", .mInt data.length)]
  let links : Option (List (String × LinkS)) :=
    match tps with
    | [tp] => tp.links
    | _ => some []
  { data := .list data,
    included := if included.isEmpty then none else some (included.map Prod.snd),
    meta := meta, links := links }

/-- Folding `pset` over a resource list gives, for each key, the LAST
resource with that key (Python dict-comprehension overwrite). -/
theorem dlookup_foldl_pset (l : List RRes) :
    ∀ (d : List (String × RRes)) (k : String),
    dlookup (l.foldl (fun d i => pset d (resKeyOf i) i) d) k =
      match l.reverse.find? (fun i => resKeyOf i == k) with
      | some i => some i
      | none => dlookup d k := by
  induction l with
  | nil => intro d k; simp
  | cons i rest ih =>
    intro d k
    simp only [List.foldl_cons, List.reverse_cons, List.find?_append]
    rw [ih]
    rcases hf : rest.reverse.find? (fun i => resKeyOf i == k) with _ | j
    · rcases hb : resKeyOf i == k with _ | _
      · have hne : k ≠ resKeyOf i := by
          intro hk
          rw [hk] at hb
          simp at hb
        rw [dlookup_pset_ne _ _ _ _ hne]
        simp [List.find?, hb]
      · have hk : resKeyOf i = k := by simpa using hb
        subst hk
        rw [dlookup_pset_self]
        simp [List.find?]
    · simp

/-- C3 (amended): merging the per-connection toplevels concatenates the
result lists in connection order; the included maps are merged by
`(type + id)` key with LAST-writer-wins values (Python dict-comprehension
overwrite; the spec's "first writer wins" holds only for key positions,
not values); with more than one (or zero) contributing connections the
meta is exactly `{"count": number of concatenated entries}` and the links
are empty; with exactly one connection meta and links are that
connection's, verbatim. -/
theorem c3_merge_toplevels_shape (tps : List TopLevelS) :
    (merge_toplevels tps).data = .list (tps.flatMap (fun tp => tlDataList tp.data))
    ∧ (∀ k, dlookup (mergeIncludedDict tps) k =
        (tps.flatMap includedList).reverse.find? (fun i => resKeyOf i == k))
    ∧ (merge_toplevels tps).meta =
        (match tps with
         | [tp] => tp.meta
         | _ => some [("count", .mInt (tps.flatMap (fun tp => tlDataList tp.data)).length)])
    ∧ (merge_toplevels tps).links = (match tps with | [tp] => tp.links | _ => some [])
    ∧ (merge_toplevels tps).included =
        (if (mergeIncludedDict tps).isEmpty then none
         else some ((mergeIncludedDict tps).map Prod.snd)) := by
  refine ⟨rfl, fun k => ?_, rfl, rfl, rfl⟩
  rw [mergeIncludedDict, dlookup_foldl_pset]
  rcases (tps.flatMap includedList).reverse.find? (fun i => resKeyOf i == k) with _ | j <;> rfl

/-- Two same-key resources that differ in their attributes. -/
def resV1 : RRes :=
  { rtype := "t", rid := "1", attrs := [("x", .vInt 1)], relationships := [], links := "l" }

/-- Two same-key resources that differ in their attributes. -/
def resV2 : RRes :=
  { rtype := "t", rid := "1", attrs := [("x", .vInt 2)], relationships := [], links := "l" }

/-- C3 counterexample to "first writer wins": two connections both
include key `t1`; the merged document keeps the SECOND connection's
resource, not the first's. -/
theorem c3_last_writer_wins_cex :
    (merge_toplevels [TopLevelS.mk (.list []) (some [resV1]) none none,
                      TopLevelS.mk (.list []) (some [resV2]) none none]).included
      = some [resV2]
    ∧ resV2 ≠ resV1 := by
  constructor
  · rfl
  · decide

/-! ## Query abstraction and entry dispatch -/

/-- The ambient fetching context as the serializer and entry layer read
it: the `include` set, the `field_names` accessor, the page parameters
and the request path used to build pagination links. -/
structure RenderCtx where
  include' : List String
  fieldNames : String → List String
  page : Int
  per_page : Int
  max_per_page : Int
  reqPath : String

/-- Mirrors `ListPagination` (`query.py:41-57`): `CursorPagination` over a value
list, `total = len(values)` set by `__init__`. -/
structure ListPaginationS where
  values : List Node
  page : Int
  per_page : Int
deriving Repr

/-- Mirrors `ListPagination(values=..., page=..., per_page=...)` through the
`CursorPagination` validators (falsy page → 1, falsy per_page → 20). -/
def ListPaginationS.make (values : List Node) (page per_page : Int) : ListPaginationS :=
  { values := values, page := pyOrInt (some page) 1, per_page := pyOrInt (some per_page) 20 }

/-- The `CursorPagination` view of a `ListPagination`. -/
def ListPaginationS.toCursor (p : ListPaginationS) : CursorPagination :=
  { total := p.values.length, page := p.page, per_page := p.per_page }

/-- Python slice `l[a:b]` (negative indices wrap, bounds clamp). -/
def pySlice {α : Type} (l : List α) (a b : Int) : List α :=
  let n : Int := l.length
  let start : Nat := if a < 0 then (max 0 (n + a)).toNat else (min a n).toNat
  let stop : Nat := if b < 0 then (max 0 (n + b)).toNat else (min b n).toNat
  (l.drop start).take (stop - start)

/-- Mirrors `ListPagination.__iter__` (`query.py:49-52`): the current page's
slice `values[(page-1)*per_page : page*per_page]`. -/
def ListPaginationS.iter (p : ListPaginationS) : List Node :=
  pySlice p.values ((p.page - 1) * p.per_page) (p.page * p.per_page)

/-- Mirrors `ListQuery` (`query.py:60-75`). -/
structure ListQueryS where
  values : List Node
deriving Repr

/-- Mirrors `ListQuery.one` (`query.py:70-75`): `NoResultFound` on zero values,
`MultipleResultsFound` on more than one, else `values[0]`. -/
def ListQueryS.one (q : ListQueryS) : Except PyErr Node :=
  match q.values with
  | [] => .error .noResultFound
  | [x] => .ok x
  | _ :: _ :: _ => .error .multipleResultsFound

/-- Mirrors `ListQuery.paginate` (`query.py:64-65`): builds a `ListPagination`,
ignoring `max_per_page`. -/
def ListQueryS.paginate (q : ListQueryS) (page per_page max_per_page : Int) : ListPaginationS :=
  ListPaginationS.make q.values page per_page

/-- The loop of `toplevel_from_pagination` (`jsonapi.py:340-344`): render
every element against the shared `included` accumulator, each with the
field names of its own type unioned into the include set. -/
def renderNodes (heap : List (String × Node)) (ctx : RenderCtx) (fuel : Nat) :
    List Node → PyDict → List String → List String → Option (List RRes × PyDict)
  | [], included, _, _ => some ([], included)
  | d :: rest, included, inc, exc =>
    match to_ressource_data heap ctx.fieldNames fuel d included ""
        (sunion (ctx.fieldNames d.jtype) inc) exc with
    | none => none
    | some (r, included') =>
      match renderNodes heap ctx fuel rest included' inc exc with
      | none => none
      | some (rs, included'') => some (r :: rs, included'')

/-- Mirrors `toplevel_from_data` (`jsonapi.py:318-330`): render one resource with
a fresh accumulator; the document's `included` is the accumulator's
values when non-empty (`none` tombstones cannot remain on success). -/
def toplevel_from_data (heap : List (String × Node)) (ctx : RenderCtx) (fuel : Nat)
    (res : Node) (inc exc : List String) : Option TopLevelS :=
  match to_ressource_data heap ctx.fieldNames fuel res [] ""
      (sunion (ctx.fieldNames res.jtype) inc) exc with
  | none => none
  | some (r, included) =>
    some { data := .res r,
           included := if included.isEmpty then none else some (included.filterMap Prod.snd),
           meta := none, links := none }

/-- Mirrors `toplevel_from_pagination` (`jsonapi.py:333-349`): render the page's
elements with a shared accumulator, then attach pagination links and
meta. -/
def toplevel_from_pagination (heap : List (String × Node)) (ctx : RenderCtx) (fuel : Nat)
    (pag : ListPaginationS) (inc exc : List String) : Option TopLevelS :=
  match renderNodes heap ctx fuel pag.iter [] inc exc with
  | none => none
  | some (rs, included) =>
    let tl : TopLevelS :=
      { data := .list rs,
        included := if included.isEmpty then none else some (included.filterMap Prod.snd),
        meta := none, links := none }
    some (add_pagination ctx.reqPath tl pag.toCursor)

/-- Mirrors `get_toplevel_from_query` over a `ListQuery`-backed source with the
default (non-iterable) connection manager (`jsonapi.py:270-296,314-315`):
`ensure_one` goes through `one()` — `NoResultFound` and
`MultipleResultsFound` are both re-raised as `NotFound` — else the query
is paginated with the context's page parameters. Exhausted fuel is
mapped to `InternalServerError` (an artifact of the embedding; the
adequacy theorem shows sufficient fuel always exists). -/
def get_toplevel_from_query (heap : List (String × Node)) (ctx : RenderCtx) (fuel : Nat)
    (query : ListQueryS) (ensure_one : Bool) (inc exc : List String) :
    Except PyErr TopLevelS :=
  let inc := sunion ctx.include' inc
  if ensure_one then
    match query.one with
    | .error .noResultFound =>
      .error (.notFound "None or more than one resource found and ensure_one parameters was set")
    | .error .multipleResultsFound =>
      .error (.notFound "None or more than one resource found and ensure_one parameters was set")
    | .error e => .error e
    | .ok resource =>
      match toplevel_from_data heap ctx fuel resource inc exc with
      | some tl => .ok tl
      | none => .error (.internalServerError "fuel exhausted")
  else
    match toplevel_from_pagination heap ctx fuel
        (query.paginate ctx.page ctx.per_page ctx.max_per_page) inc exc with
    | some tl => .ok tl
    | none => .error (.internalServerError "fuel exhausted")

/-- What a decorated handler can return (`jsonapi.py:176-183`): a query,
a SQLAlchemy scalar result, or a pre-built toplevel. -/
inductive HandlerRes where
  | query (q : ListQueryS)
  | scalar (s : ListQueryS)
  | toplevel (tp : TopLevelS)

/-- The result dispatch of the `jsonapi` entry decorator
(`jsonapi.py:174-188`): a `Query` keeps the caller's `ensure_one`, a
`ScalarResult` forces `ensure_one=True`, a `TopLevel` passes through;
`NotFound` is swallowed into an empty-data document unless the caller
set `ensure_one`. -/
def jsonapiEntry (heap : List (String × Node)) (ctx : RenderCtx) (fuel : Nat)
    (ensure_one : Bool) (res : HandlerRes) : Except PyErr (TopLevelS × Nat) :=
  let r : Except PyErr TopLevelS :=
    match res with
    | .query q => get_toplevel_from_query heap ctx fuel q ensure_one [] []
    | .scalar sc => get_toplevel_from_query heap ctx fuel sc true [] []
    | .toplevel tp => .ok tp
  match r with
  | .ok tl => .ok (tl, 200)
  | .error (.notFound m) =>
    if ensure_one then .error (.notFound m)
    else .ok ({ data := .list [], included := none, meta := none, links := none }, 200)
  | .error e => .error e

/-- C6: a scalar fetch whose `one()` finds nothing yields, under
`ensure_one=false`, a 200 document whose `data` is the empty array, with
no error; under `ensure_one=true` the `NotFound` propagates. -/
theorem c6_empty_scalar_fetch (heap : List (String × Node)) (ctx : RenderCtx) (fuel : Nat) :
    jsonapiEntry heap ctx fuel false (.scalar ⟨[]⟩) =
      .ok ({ data := .list [], included := none, meta := none, links := none }, 200)
    ∧ jsonapiEntry heap ctx fuel true (.scalar ⟨[]⟩) =
      .error (.notFound "None or more than one resource found and ensure_one parameters was set") := by
  constructor <;> rfl

/-- C9 (amended): `one()` raises `NoResultFound` on zero values and
`MultipleResultsFound` on more than one, returning the unique element
otherwise; the entry layer maps BOTH failures to `NotFound`, hence HTTP
404 — `MultipleResultsFound` does not surface as HTTP 500. -/
theorem c9_one_and_error_mapping (q : ListQueryS) :
    (q.values = [] → q.one = .error .noResultFound)
    ∧ (∀ x, q.values = [x] → q.one = .ok x)
    ∧ (2 ≤ q.values.length → q.one = .error .multipleResultsFound)
    ∧ (∀ (heap : List (String × Node)) (ctx : RenderCtx) (fuel : Nat),
        q.values.length ≠ 1 →
        jsonapiEntry heap ctx fuel true (.query q) =
          .error (.notFound
            "None or more than one resource found and ensure_one parameters was set")
        ∧ httpStatus (.notFound
            "None or more than one resource found and ensure_one parameters was set") = 404) := by
  obtain ⟨vals⟩ := q
  rcases vals with _ | ⟨x, _ | ⟨y, rest⟩⟩
  · refine ⟨fun _ => rfl, ?_, ?_, ?_⟩
    · intro x hx
      cases hx
    · intro h
      simp at h
    · intro heap ctx fuel _
      exact ⟨rfl, rfl⟩
  · refine ⟨?_, ?_, ?_, ?_⟩
    · intro h
      cases h
    · intro x0 hx
      cases hx
      rfl
    · intro h
      simp at h
    · intro heap ctx fuel hlen
      exact absurd rfl hlen
  · refine ⟨?_, ?_, ?_, ?_⟩
    · intro h
      cases h
    · intro x0 hx
      cases hx
    · intro _
      rfl
    · intro heap ctx fuel _
      exact ⟨rfl, rfl⟩

/-- A concrete ambient context for counterexamples. -/
def ctxEx : RenderCtx :=
  { include' := [], fieldNames := fun _ => [], page := 1, per_page := 100,
    max_per_page := 100, reqPath := "/p" }

/-- C9 counterexample to the claim as stated: a two-element query under
`ensure_one` fails with `MultipleResultsFound`, which the entry layer
re-raises as `NotFound` — HTTP 404, not the HTTP 500 the spec assigns to
`MultipleFound`. -/
theorem c9_multiple_found_is_404 :
    jsonapiEntry heapEx ctxEx 3 true (.query ⟨[nodeA, nodeB]⟩) =
      .error (.notFound "None or more than one resource found and ensure_one parameters was set")
    ∧ httpStatus (.notFound
        "None or more than one resource found and ensure_one parameters was set") = 404
    ∧ httpStatus (.notFound
        "None or more than one resource found and ensure_one parameters was set") ≠ 500 := by
  refine ⟨rfl, rfl, by decide⟩
